import Mathlib

/-
Verification of the tenant-scoped policy cache subsystem of a multi-tenant
authorization server (Node.js/Casbin). The JavaScript source is shallowly
embedded: JS Maps become association lists with unique keys, timestamps and
byte counts become natural numbers (or integers where JS subtraction may go
negative), asynchronous store/broker calls become explicit result parameters,
and the synchronous portion of each request handler becomes a pure function
on an explicit state record.
-/

namespace Auth

/-! ## Association-list helpers (embedding of JS `Map`) -/

/-- Keys of an association list, in insertion order (JS `Map` iteration order). -/
def keys (m : List (String × α)) : List String :=
  m.map Prod.fst

/-- Lookup in an association list (JS `map.get(k)`). -/
def lookupKey (k : String) : List (String × α) → Option α
  | [] => none
  | (k', v) :: rest => if k' = k then some v else lookupKey k rest

/-- Removal from an association list (JS `map.delete(k)`). -/
def eraseKey (k : String) (m : List (String × α)) : List (String × α) :=
  m.filter (fun p => p.1 ≠ k)

/-- Insertion/update in an association list (JS `map.set(k, v)`): an existing
key is updated in place keeping its position, a new key is appended at the
end, matching JS `Map` insertion-order semantics. -/
def setKey (k : String) (v : α) : List (String × α) → List (String × α)
  | [] => [(k, v)]
  | (k', v') :: rest => if k' = k then (k, v) :: rest else (k', v') :: setKey k v rest

/-! ## Data model: rules, the shared `casbin_rule` table, enforcers

A row of the shared `casbin_rule` table. `ptype` is the rule kind
(a permission rule has kind p, a grouping rule has kind g); the value columns
`v0`..`v4` are nullable strings. For p rows the tenant is carried in `v3`,
for g rows in `v2`. -/

structure CasbinRow where
  ptype : String
  v0 : Option String
  v1 : Option String
  v2 : Option String
  v3 : Option String
  v4 : Option String
deriving DecidableEq, Repr

/-- A Policy Engine Instance (Casbin enforcer) as the rest of the subsystem
observes it: the loaded permission rules (`getPolicy`) and grouping rules
(`getGroupingPolicy`). Rule entries are nullable strings, as loaded from the
table. -/
structure Enforcer where
  policies : List (List (Option String))
  groupingPolicies : List (List (Option String))
deriving DecidableEq, Repr

/-- Embedding of `TenantAwareAdapter.loadPolicy` (tenant-aware-adapter.js):
loads only rows WHERE `ptype = p AND v3 = tenant` into the model's p section
(dropping null values from the row, as the JS does with
`filter(v => v !== null)`), and rows WHERE `ptype = g AND v2 = tenant` into
the g section (the three raw values, no null filter). -/
def loadPolicy (tenant : String) (table : List CasbinRow) : Enforcer :=
  { policies :=
      (table.filter (fun r => r.ptype == "p" && r.v3 == some tenant)).map
        (fun r => ([r.v0, r.v1, r.v2, r.v3, r.v4]).filter Option.isSome)
    groupingPolicies :=
      (table.filter (fun r => r.ptype == "g" && r.v2 == some tenant)).map
        (fun r => [r.v0, r.v1, r.v2]) }

/-- The tenant field of a stored permission rule: position 3 of the rule array
(`v3` by the system's storage convention). -/
def pRuleTenant (rule : List (Option String)) : Option String :=
  rule.getD 3 none

/-- The tenant field of a stored grouping rule: position 2 of the rule array
(`v2` by the system's storage convention). -/
def gRuleTenant (rule : List (Option String)) : Option String :=
  rule.getD 2 none

/-- Well-formed table: every permission row has non-null `v0`, `v1`, `v2`
(role, object, action), as every row written through this system does
(`TenantAwareAdapter.addPolicy` always supplies them). -/
def WFTable (table : List CasbinRow) : Prop :=
  ∀ r ∈ table, r.ptype = "p" → r.v0.isSome ∧ r.v1.isSome ∧ r.v2.isSome

/-- A sample shared rule table holding rows of two tenants, used to
instantiate the isolation theorem at a concrete input. -/
def sampleTable : List CasbinRow :=
  [⟨"p", some "admin", some "doc1", some "read", some "t1", none⟩,
   ⟨"p", some "admin", some "doc2", some "read", some "t2", none⟩,
   ⟨"g", some "alice", some "admin", some "t1", none, none⟩,
   ⟨"g", some "bob", some "admin", some "t2", none, none⟩]

/-! ## The Tenant Policy Cache (`TenantEnforcerCache` in casbin.js) -/

/-- Per-call environment: the wall clock and the process heap sample read by
`cleanup()` (`Date.now()` and `process.memoryUsage()`, in MB as the source
rounds them). -/
structure Env where
  now : Nat
  heapUsed : Nat
  heapTotal : Nat
deriving DecidableEq, Repr

/-- State of `TenantEnforcerCache`: the tenant → enforcer map, the LRU access
order (least-recently-used at the head), the per-tenant memory estimates, and
the cleanup rate-limit bookkeeping. -/
structure CacheState where
  maxSize : Nat
  cache : List (String × Enforcer)
  accessOrder : List String
  memoryUsage : List (String × Nat)
  lastCleanup : Nat
  cleanupInterval : Nat
deriving DecidableEq, Repr

/-- Constructor `new TenantEnforcerCache(maxSize)`; `lastCleanup` starts at the
construction time and `cleanupInterval` is 30000 ms. -/
def mkCache (maxSize now0 : Nat) : CacheState :=
  { maxSize := maxSize, cache := [], accessOrder := [], memoryUsage := []
    lastCleanup := now0, cleanupInterval := 30000 }

/-- Embedding of `estimateEnforcerMemory`: each policy is accounted at 100
bytes, each grouping policy at 80 bytes, plus 1024 bytes of base memory. -/
def estimateEnforcerMemory (e : Enforcer) : Nat :=
  e.policies.length * 100 + e.groupingPolicies.length * 80 + 1024

/-- Embedding of `evictTenant`: removes the tenant from the cache map, the
memory-accounting map, and the access order (the source also clears the
evicted enforcer's internal rule structures, which has no effect on the
cache state itself). -/
def evictTenant (s : CacheState) (t : String) : CacheState :=
  { s with cache := eraseKey t s.cache
           memoryUsage := eraseKey t s.memoryUsage
           accessOrder := s.accessOrder.filter (fun x => x ≠ t) }

/-- One `accessOrder.shift(); if (lruTenant) evictTenant(lruTenant)` step, as
both `cleanup` and `set` perform it. Note the JS truthiness guard: a shifted
empty-string tenant is dropped from the access order but NOT evicted from the
cache map. -/
def shiftEvict (s : CacheState) : CacheState :=
  match s.accessOrder with
  | [] => s
  | t :: rest =>
    let s' := { s with accessOrder := rest }
    if t = "" then s' else evictTenant s' t

/-- The eviction loop `for (let i = 0; i < evictCount; i++)` of `cleanup`. -/
def evictLoop : Nat → CacheState → CacheState
  | 0, s => s
  | n + 1, s => evictLoop n (shiftEvict s)

/-- Embedding of `TenantEnforcerCache.cleanup`: rate-limited to once per
`cleanupInterval`; if heap usage exceeds 70% of heap capacity it evicts 70%
of the entries (`Math.floor(size * 0.7)`) in LRU order, otherwise it evicts
only the overflow beyond `maxSize`. The float comparison
`(heapUsed / heapTotal) * 100 > 70` is rendered exactly as
`100 * heapUsed > 70 * heapTotal` (also agreeing with the JS NaN/Infinity
outcomes when `heapTotal = 0`). -/
def cleanup (s : CacheState) (env : Env) : CacheState :=
  if env.now - s.lastCleanup < s.cleanupInterval then s
  else
    let s' :=
      if 100 * env.heapUsed > 70 * env.heapTotal then
        evictLoop (s.cache.length * 7 / 10) s
      else if s.cache.length > s.maxSize then
        evictLoop (s.cache.length - s.maxSize) s
      else s
    { s' with lastCleanup := env.now }

/-- Embedding of `TenantEnforcerCache.get`: runs `cleanup` first, then on a
hit moves the tenant to the MRU tail and returns the enforcer; on a miss
returns `none` with no further state change. -/
def cacheGet (s : CacheState) (t : String) (env : Env) : CacheState × Option Enforcer :=
  let s' := cleanup s env
  if t ∈ keys s'.cache then
    ({ s' with accessOrder := s'.accessOrder.filter (fun x => x ≠ t) ++ [t] },
     lookupKey t s'.cache)
  else (s', none)

/-- Embedding of `TenantEnforcerCache.set`: runs `cleanup` first; an existing
tenant's enforcer is replaced and moved to MRU (note: its stored memory
estimate is NOT recomputed on this path); a new tenant first triggers one LRU
eviction if the cache is at capacity, then is appended together with its
memory estimate. -/
def cacheSet (s : CacheState) (t : String) (e : Enforcer) (env : Env) : CacheState :=
  let s' := cleanup s env
  if t ∈ keys s'.cache then
    { s' with cache := setKey t e s'.cache
              accessOrder := s'.accessOrder.filter (fun x => x ≠ t) ++ [t] }
  else
    let s'' := if s'.cache.length ≥ s'.maxSize then shiftEvict s' else s'
    { s'' with cache := setKey t e s''.cache
               accessOrder := s''.accessOrder ++ [t]
               memoryUsage := setKey t (estimateEnforcerMemory e) s''.memoryUsage }

/-- Embedding of `TenantEnforcerCache.delete`, which just calls `evictTenant`. -/
def cacheDelete (s : CacheState) (t : String) : CacheState :=
  evictTenant s t

/-- Aggregate memory estimate reported by `getStats`:
`Array.from(this.memoryUsage.values()).reduce((sum, mem) => sum + mem, 0)`. -/
def totalEstimatedBytes (s : CacheState) : Nat :=
  (s.memoryUsage.map Prod.snd).sum

/-! ## Cache operation sequences -/

/-- One externally invokable cache operation (the environment sample taken at
the time of the call travels with the operation). -/
inductive CacheOp where
  | get (tenant : String) (env : Env)
  | set (tenant : String) (e : Enforcer) (env : Env)
  | delete (tenant : String)
deriving DecidableEq, Repr

/-- The tenant identifier an operation addresses. -/
def CacheOp.tenant : CacheOp → String
  | .get t _ => t
  | .set t _ _ => t
  | .delete t => t

/-- Apply one operation to the cache state. -/
def applyOp (s : CacheState) : CacheOp → CacheState
  | .get t env => (cacheGet s t env).1
  | .set t e env => cacheSet s t e env
  | .delete t => cacheDelete s t

/-- Run a sequence of cache operations. -/
def runOps (s : CacheState) (ops : List CacheOp) : CacheState :=
  ops.foldl applyOp s

/-! ## Refresh and the invalidation handler (casbin.js) -/

/-- Embedding of `refreshTenantPolicies`: the outcome of
`createTenantEnforcer(tenant)` (which performs store I/O and may fail) is
passed in explicitly. On success the freshly built enforcer is stored with
`tenantCache.set`; on failure the error is caught and logged and the cache is
left untouched. -/
def refreshTenantPolicies (s : CacheState) (tenant : String)
    (build : Except String Enforcer) (env : Env) : CacheState :=
  match build with
  | .error _ => s
  | .ok e => cacheSet s tenant e env

/-- Replica configuration: the `SERVER_ID` and `PORT` environment variables
(absent = `none`). -/
structure ReplicaConfig where
  serverId : Option String
  port : Option String
deriving DecidableEq, Repr

/-- JS `a || b` on a possibly-undefined string: the empty string is falsy. -/
def jsOr (a : Option String) (b : String) : String :=
  match a with
  | some s => if s = "" then b else s
  | none => b

/-- The port-derived fallback identity `server-${process.env.PORT || 3000}`. -/
def defaultPortId (cfg : ReplicaConfig) : String :=
  "server-" ++ jsOr cfg.port "3000"

/-- The identity this replica publishes in its own invalidation events:
`process.env.SERVER_ID || server-${process.env.PORT || 3000}`
(see `publishTenantRefresh`). -/
def ownServerId (cfg : ReplicaConfig) : String :=
  jsOr cfg.serverId (defaultPortId cfg)

/-- A delivered invalidation event `{tenant, operation, serverId, timestamp}`. -/
structure RefreshEvent where
  tenant : String
  operation : String
  serverId : String
  timestamp : String
deriving DecidableEq, Repr

/-- Embedding of `handleTenantRefresh`: returns the tenant passed on to
`refreshTenantPolicies`, or `none` when the event is skipped. The skip test is
`serverId === process.env.SERVER_ID || serverId === server-${PORT || 3000}`
(the strict equality against an absent `SERVER_ID` is false). -/
def handleTenantRefresh (cfg : ReplicaConfig) (ev : RefreshEvent) : Option String :=
  if cfg.serverId = some ev.serverId ∨ ev.serverId = defaultPortId cfg then none
  else some ev.tenant

/-! ## The request queue (`RequestQueue` in the server entry file) -/

structure QueueStats where
  totalRequests : Nat
  queuedRequests : Nat
  rejectedRequests : Nat
  totalWaitTime : Nat
  averageWaitTime : ℚ
deriving DecidableEq, Repr

/-- A queued entry: the task (identified by a number; tasks are opaque
long-running thunks) and its arrival timestamp. -/
structure QueueEntry where
  task : Nat
  timestamp : Nat
deriving DecidableEq, Repr

structure RequestQueue where
  maxConcurrent : Nat
  maxQueueSize : Nat
  running : Nat
  queue : List QueueEntry
  stats : QueueStats
deriving DecidableEq, Repr

/-- Constructor `new RequestQueue(maxConcurrent, maxQueueSize)`. -/
def mkRequestQueue (maxConcurrent maxQueueSize : Nat) : RequestQueue :=
  { maxConcurrent := maxConcurrent, maxQueueSize := maxQueueSize
    running := 0, queue := []
    stats := { totalRequests := 0, queuedRequests := 0, rejectedRequests := 0
               totalWaitTime := 0, averageWaitTime := 0 } }

/-- Outcome of `RequestQueue.add` as observed at submission time. -/
inductive AddResult where
  | queueFull
  | pending
deriving DecidableEq, Repr

/-- Synchronous prefix of `processQueue`: if concurrency headroom exists and
the queue is non-empty, dispatch the head entry — increment `running`, record
its wait time, and start the task. A long-running task's completion is a
separate later step (`taskComplete`). -/
def processQueue (s : RequestQueue) (now : Nat) : RequestQueue :=
  if s.running ≥ s.maxConcurrent then s
  else
    match s.queue with
    | [] => s
    | entry :: rest =>
      let waitTime := now - entry.timestamp
      let totalWait := s.stats.totalWaitTime + waitTime
      { s with running := s.running + 1
               queue := rest
               stats := { s.stats with
                          totalWaitTime := totalWait
                          averageWaitTime := (totalWait : ℚ) / (s.stats.totalRequests : ℚ) } }

/-- Embedding of `RequestQueue.add`: counts the request; if the waiting queue
already holds `maxQueueSize` entries or more, rejects with `queueFull`
(`throw new Error('Request queue is full...')`); otherwise appends the entry
with its arrival timestamp and runs the synchronous part of `processQueue`. -/
def addRequest (s : RequestQueue) (task : Nat) (now : Nat) : RequestQueue × AddResult :=
  let s1 := { s with stats := { s.stats with totalRequests := s.stats.totalRequests + 1 } }
  if s1.queue.length ≥ s1.maxQueueSize then
    ({ s1 with stats := { s1.stats with rejectedRequests := s1.stats.rejectedRequests + 1 } },
     .queueFull)
  else
    let s2 := { s1 with queue := s1.queue ++ [{ task := task, timestamp := now }]
                        stats := { s1.stats with queuedRequests := s1.stats.queuedRequests + 1 } }
    (processQueue s2 now, .pending)

/-- The `finally` block of `processQueue`: on task completion `running` is
decremented and the dispatcher immediately tries the next queued entry. -/
def taskComplete (s : RequestQueue) (now : Nat) : RequestQueue :=
  processQueue { s with running := s.running - 1 } now

/-! ## The sliding-window rate limiter (`rateLimit` middleware) -/

/-- Embedding of one `rateLimit` middleware check for one client identity.
Timestamps are integers (JS subtraction `now - windowMs` may go negative).
Returns the client's updated timestamp record and `some retryAfter` when the
request is rejected with HTTP 429, `none` when it is admitted. The stored
record is first filtered to timestamps strictly inside the window; on
admission the current time is appended, on rejection nothing is appended. -/
def rateLimitCheck (windowMs maxRequests : Nat) (record : List Int) (now : Int) :
    List Int × Option Nat :=
  let windowStart := now - (windowMs : Int)
  let kept := record.filter (fun ts => windowStart < ts)
  if kept.length ≥ maxRequests then
    (kept, some ((windowMs + 999) / 1000))
  else
    (kept ++ [now], none)

/-- Run the rate limiter over a sequence of request arrival times for one
client, starting from a given stored record; returns the final stored record
and the list of admitted arrival times. -/
def runRateLimiter (windowMs maxRequests : Nat) (record : List Int) :
    List Int → List Int × List Int
  | [] => (record, [])
  | now :: rest =>
    let step := rateLimitCheck windowMs maxRequests record now
    let later := runRateLimiter windowMs maxRequests step.1 rest
    (later.1, (if step.2 = none then [now] else []) ++ later.2)

/-! ## The duplicate pre-check (`checkDatabaseDuplicate`) and write path -/

/-- Outcome of the `COUNT(*)` query against the store. -/
inductive StoreResult where
  | ok (count : Nat)
  | err (msg : String)
deriving DecidableEq, Repr

/-- Embedding of `checkDatabaseDuplicate`: when database checks are disabled
via the runtime toggle it returns `false` immediately; otherwise it runs the
tenant-filtered count query — on success it reports `count > 0`, and on any
query error the `catch` block logs and returns `false` (fails open). -/
def checkDatabaseDuplicate (dbCheckEnabled : Bool) (queryResult : StoreResult) : Bool :=
  if !dbCheckEnabled then false
  else
    match queryResult with
    | .ok count => decide (count > 0)
    | .err _ => false

/-- Outcome of the duplicate pre-check step of the `/add-permission` handler:
a `true` pre-check throws the already-exists error, a `false` pre-check lets
the write proceed (`enforcer.addPolicy` is then called). -/
inductive WriteStep where
  | alreadyExists
  | writeProceeds
deriving DecidableEq, Repr

/-- The pre-check branch of the `POST /add-permission` handler. -/
def addPermissionPrecheck (dup : Bool) : WriteStep :=
  if dup then .alreadyExists else .writeProceeds

/-- A concrete cache used to exercise cleanup's eviction thresholds: two
tenants cached, far below the capacity of 50, with the rate-limit interval
elapsed at the probing time. -/
def pressureState : CacheState :=
  ⟨50, [("a", ⟨[], []⟩), ("b", ⟨[], []⟩)], ["a", "b"],
   [("a", 1024), ("b", 1024)], 0, 30000⟩

/-- An environment sample at 75% heap usage (elevated, not critical), taken
30 s after the last cleanup. -/
def pressureEnv : Env := ⟨30000, 75, 100⟩

/-! ## Structural invariant of the cache state -/

/-- Coherence of the three internal maps of `TenantEnforcerCache`: the access
order lists each cached tenant exactly once and nothing else, the cache and
memory-accounting maps have unique keys and the same key set, and no tenant
identifier is the empty string (the JS truthiness guard `if (lruTenant)`
misbehaves on the empty string, see `shiftEvict`). -/
structure Good (s : CacheState) : Prop where
  orderNodup : s.accessOrder.Nodup
  cacheNodup : (keys s.cache).Nodup
  orderIff : ∀ t, t ∈ s.accessOrder ↔ t ∈ keys s.cache
  lenEq : s.cache.length = s.accessOrder.length
  noEmpty : ∀ t ∈ s.accessOrder, t ≠ ""
  memNodup : (keys s.memoryUsage).Nodup
  memIff : ∀ t, t ∈ keys s.memoryUsage ↔ t ∈ keys s.cache

end Auth

namespace Auth

/-! ## Association-list lemmas -/

theorem keys_nil : keys ([] : List (String × α)) = [] := rfl

theorem keys_cons (p : String × α) (m : List (String × α)) :
    keys (p :: m) = p.1 :: keys m := rfl

theorem mem_keys_iff {m : List (String × α)} {k : String} :
    k ∈ keys m ↔ ∃ v, (k, v) ∈ m := by
  constructor
  · intro h
    rcases List.mem_map.1 h with ⟨⟨a, b⟩, hmem, rfl⟩
    exact ⟨b, hmem⟩
  · rintro ⟨v, hv⟩
    exact List.mem_map_of_mem Prod.fst hv

theorem keys_eraseKey (k : String) (m : List (String × α)) :
    keys (eraseKey k m) = (keys m).filter (fun x => x ≠ k) := by
  induction m with
  | nil => rfl
  | cons p rest ih =>
    by_cases h : p.1 = k <;>
      simp [eraseKey, keys, List.filter, h] at ih ⊢ <;>
      simpa [eraseKey, keys] using ih

theorem mem_keys_eraseKey {m : List (String × α)} {k a : String} :
    a ∈ keys (eraseKey k m) ↔ a ∈ keys m ∧ a ≠ k := by
  rw [keys_eraseKey]
  simp [List.mem_filter]

theorem nodup_keys_eraseKey {m : List (String × α)} (k : String)
    (h : (keys m).Nodup) : (keys (eraseKey k m)).Nodup := by
  rw [keys_eraseKey]
  exact h.filter _

theorem eraseKey_of_not_mem {m : List (String × α)} {k : String}
    (h : k ∉ keys m) : eraseKey k m = m := by
  apply List.filter_eq_self.2
  intro p hp
  simp only [decide_eq_true_eq]
  intro hk
  exact h (hk ▸ List.mem_map_of_mem Prod.fst hp)

theorem length_eraseKey_of_mem {m : List (String × α)} {k : String}
    (hnd : (keys m).Nodup) (hmem : k ∈ keys m) :
    (eraseKey k m).length + 1 = m.length := by
  induction m with
  | nil => simp [keys] at hmem
  | cons p rest ih =>
    simp only [keys, List.map_cons, List.nodup_cons, List.mem_cons] at hnd hmem
    by_cases h : p.1 = k
    · have : eraseKey k (p :: rest) = eraseKey k rest := by
        simp [eraseKey, List.filter, h]
      rw [this, eraseKey_of_not_mem (h ▸ hnd.1)]
      simp
    · have : eraseKey k (p :: rest) = p :: eraseKey k rest := by
        simp [eraseKey, List.filter, h]
      rw [this]
      have hk : k ∈ keys rest := by
        rcases hmem with h1 | h1
        · exact absurd h1.symm h
        · exact h1
      simp [List.length_cons, ih hnd.2 hk]

theorem keys_setKey_of_mem {m : List (String × α)} {k : String} (v : α)
    (h : k ∈ keys m) : keys (setKey k v m) = keys m := by
  induction m with
  | nil => simp [keys] at h
  | cons p rest ih =>
    by_cases hk : p.1 = k
    · simp [setKey, hk, keys_cons]
    · simp only [keys_cons, List.mem_cons] at h
      rcases h with h1 | h1
      · exact absurd h1.symm hk
      · simp [setKey, hk, keys_cons, ih h1]

theorem keys_setKey_of_not_mem {m : List (String × α)} {k : String} (v : α)
    (h : k ∉ keys m) : keys (setKey k v m) = keys m ++ [k] := by
  induction m with
  | nil => rfl
  | cons p rest ih =>
    simp only [keys_cons, List.mem_cons, not_or] at h
    simp [setKey, Ne.symm h.1, keys_cons, ih h.2]

theorem length_setKey_of_mem {m : List (String × α)} {k : String} (v : α)
    (h : k ∈ keys m) : (setKey k v m).length = m.length := by
  have := congrArg List.length (keys_setKey_of_mem v h)
  simpa [keys] using this

theorem length_setKey_of_not_mem {m : List (String × α)} {k : String} (v : α)
    (h : k ∉ keys m) : (setKey k v m).length = m.length + 1 := by
  have := congrArg List.length (keys_setKey_of_not_mem v h)
  simpa [keys] using this

theorem lookupKey_setKey_self (k : String) (v : α) (m : List (String × α)) :
    lookupKey k (setKey k v m) = some v := by
  induction m with
  | nil => simp [setKey, lookupKey]
  | cons p rest ih =>
    by_cases h : p.1 = k
    · simp [setKey, h, lookupKey]
    · simp [setKey, h, lookupKey, ih]

theorem lookupKey_isSome_iff {m : List (String × α)} {k : String} :
    (lookupKey k m).isSome ↔ k ∈ keys m := by
  induction m with
  | nil => simp [lookupKey, keys]
  | cons p rest ih =>
    by_cases h : p.1 = k
    · simp [lookupKey, h, keys]
    · simp [lookupKey, h, keys, Ne.symm h] at ih ⊢
      exact ih

theorem filter_ne_of_not_mem {l : List String} {t : String} (h : t ∉ l) :
    l.filter (fun x => x ≠ t) = l := by
  apply List.filter_eq_self.2
  intro a ha
  simp only [decide_eq_true_eq]
  exact fun hc => h (hc ▸ ha)

theorem length_filter_ne_add_one {l : List String} {t : String}
    (hnd : l.Nodup) (hmem : t ∈ l) :
    (l.filter (fun x => x ≠ t)).length + 1 = l.length := by
  induction l with
  | nil => simp at hmem
  | cons a rest ih =>
    rw [List.nodup_cons] at hnd
    rcases List.mem_cons.1 hmem with rfl | h1
    · rw [List.filter_cons, if_neg (by simp), filter_ne_of_not_mem hnd.1,
        List.length_cons]
    · have hat : a ≠ t := fun hc => hnd.1 (hc ▸ h1)
      rw [List.filter_cons, if_pos (by simpa using hat), List.length_cons,
        List.length_cons, ih hnd.2 h1]

/-! ## Preservation of the cache invariant -/

theorem good_evictTenant {s : CacheState} (t : String) (h : Good s) :
    Good (evictTenant s t) := by
  obtain ⟨ms, ca, ao, mu, lc, ci⟩ := s
  have horderNodup : ao.Nodup := h.orderNodup
  have hcacheNodup : (keys ca).Nodup := h.cacheNodup
  have horderIff : ∀ a, a ∈ ao ↔ a ∈ keys ca := h.orderIff
  have hlenEq : ca.length = ao.length := h.lenEq
  have hnoEmpty : ∀ a ∈ ao, a ≠ "" := h.noEmpty
  have hmemNodup : (keys mu).Nodup := h.memNodup
  have hmemIff : ∀ a, a ∈ keys mu ↔ a ∈ keys ca := h.memIff
  refine ⟨horderNodup.filter _, nodup_keys_eraseKey t hcacheNodup, ?_, ?_, ?_,
    nodup_keys_eraseKey t hmemNodup, ?_⟩
  · intro a
    show a ∈ ao.filter (fun x => x ≠ t) ↔ a ∈ keys (eraseKey t ca)
    simp only [mem_keys_eraseKey, List.mem_filter, decide_eq_true_eq]
    rw [horderIff a]
  · show (eraseKey t ca).length = (ao.filter (fun x => x ≠ t)).length
    by_cases hmem : t ∈ keys ca
    · have h1 := length_eraseKey_of_mem hcacheNodup hmem
      have h2 := length_filter_ne_add_one horderNodup ((horderIff t).2 hmem)
      omega
    · rw [eraseKey_of_not_mem hmem,
        filter_ne_of_not_mem (fun hc => hmem ((horderIff t).1 hc))]
      exact hlenEq
  · intro a ha
    exact hnoEmpty a (List.mem_of_mem_filter ha)
  · intro a
    show a ∈ keys (eraseKey t mu) ↔ a ∈ keys (eraseKey t ca)
    simp only [mem_keys_eraseKey]
    rw [hmemIff a]

theorem shiftEvict_spec {s : CacheState} (h : Good s) :
    Good (shiftEvict s) ∧ (shiftEvict s).accessOrder = s.accessOrder.tail ∧
      (shiftEvict s).cache.length = s.cache.length - 1 ∧
      (shiftEvict s).maxSize = s.maxSize ∧
      (shiftEvict s).lastCleanup = s.lastCleanup ∧
      (shiftEvict s).cleanupInterval = s.cleanupInterval := by
  obtain ⟨ms, ca, ao, mu, lc, ci⟩ := s
  cases ao with
  | nil =>
    have hz : ca.length = 0 := h.lenEq
    exact ⟨h, rfl, by simp [shiftEvict]; omega, rfl, rfl, rfl⟩
  | cons t rest =>
    have hcacheNodup : (keys ca).Nodup := h.cacheNodup
    have horderIff : ∀ a, a ∈ t :: rest ↔ a ∈ keys ca := h.orderIff
    have hnoEmpty : ∀ a ∈ t :: rest, a ≠ "" := h.noEmpty
    have hmemNodup : (keys mu).Nodup := h.memNodup
    have hmemIff : ∀ a, a ∈ keys mu ↔ a ∈ keys ca := h.memIff
    have hne : t ≠ "" := hnoEmpty t (List.mem_cons_self t rest)
    have hmem : t ∈ keys ca := (horderIff t).1 (List.mem_cons_self t rest)
    have hnd : t ∉ rest ∧ rest.Nodup := List.nodup_cons.1 h.orderNodup
    have htr : t ∉ rest := hnd.1
    have hrest : rest.filter (fun x => x ≠ t) = rest := filter_ne_of_not_mem htr
    have hstep : shiftEvict ⟨ms, ca, t :: rest, mu, lc, ci⟩ =
        ⟨ms, eraseKey t ca, rest, eraseKey t mu, lc, ci⟩ := by
      show (if t = "" then _ else _) = _
      rw [if_neg hne]
      show CacheState.mk ms (eraseKey t ca) (rest.filter (fun x => x ≠ t))
        (eraseKey t mu) lc ci = _
      rw [hrest]
    have hlen : (eraseKey t ca).length + 1 = ca.length :=
      length_eraseKey_of_mem hcacheNodup hmem
    have hlenEq : ca.length = rest.length + 1 := by
      have h2 : ca.length = (t :: rest).length := h.lenEq
      simpa using h2
    rw [hstep]
    refine ⟨⟨hnd.2, nodup_keys_eraseKey t hcacheNodup, ?_, ?_, ?_,
        nodup_keys_eraseKey t hmemNodup, ?_⟩, rfl, ?_, rfl, rfl, rfl⟩
    · intro a
      show a ∈ rest ↔ a ∈ keys (eraseKey t ca)
      simp only [mem_keys_eraseKey]
      constructor
      · intro ha
        exact ⟨(horderIff a).1 (List.mem_cons_of_mem t ha), fun hc => htr (hc ▸ ha)⟩
      · rintro ⟨hk, hneq⟩
        rcases List.mem_cons.1 ((horderIff a).2 hk) with rfl | h2
        · exact absurd rfl hneq
        · exact h2
    · show (eraseKey t ca).length = rest.length
      omega
    · intro a ha
      exact hnoEmpty a (List.mem_cons_of_mem t ha)
    · intro a
      show a ∈ keys (eraseKey t mu) ↔ a ∈ keys (eraseKey t ca)
      simp only [mem_keys_eraseKey]
      rw [hmemIff a]
    · show (eraseKey t ca).length = ca.length - 1
      omega

theorem keys_shiftEvict_subset {s : CacheState} :
    ∀ a, a ∈ keys (shiftEvict s).cache → a ∈ keys s.cache := by
  obtain ⟨ms, ca, ao, mu, lc, ci⟩ := s
  cases ao with
  | nil => exact fun a ha => ha
  | cons t rest =>
    intro a
    show a ∈ keys (if t = "" then CacheState.mk ms ca rest mu lc ci
        else evictTenant (CacheState.mk ms ca rest mu lc ci) t).cache → a ∈ keys ca
    by_cases hne : t = ""
    · rw [if_pos hne]
      exact fun ha => ha
    · rw [if_neg hne]
      exact fun ha => (mem_keys_eraseKey.1 ha).1

theorem good_setLastCleanup {s : CacheState} (n : Nat) (h : Good s) :
    Good { s with lastCleanup := n } :=
  ⟨h.orderNodup, h.cacheNodup, h.orderIff, h.lenEq, h.noEmpty, h.memNodup, h.memIff⟩

theorem evictLoop_spec (n : Nat) {s : CacheState} (h : Good s) :
    Good (evictLoop n s) ∧ (evictLoop n s).accessOrder = s.accessOrder.drop n ∧
      (evictLoop n s).cache.length = s.cache.length - n ∧
      (evictLoop n s).maxSize = s.maxSize ∧
      (evictLoop n s).lastCleanup = s.lastCleanup ∧
      (evictLoop n s).cleanupInterval = s.cleanupInterval := by
  induction n generalizing s with
  | zero => exact ⟨h, by simp [evictLoop], by simp [evictLoop], rfl, rfl, rfl⟩
  | succ n ih =>
    obtain ⟨hg, hao, hlen, hms, hlc, hci⟩ := shiftEvict_spec h
    obtain ⟨hg', hao', hlen', hms', hlc', hci'⟩ := ih hg
    have hred : evictLoop (n + 1) s = evictLoop n (shiftEvict s) := rfl
    rw [hred]
    refine ⟨hg', ?_, ?_, ?_, ?_, ?_⟩
    · rw [hao', hao, ← List.drop_one, List.drop_drop, Nat.add_comm]
    · omega
    · rw [hms', hms]
    · rw [hlc', hlc]
    · rw [hci', hci]

theorem cleanup_eq (s : CacheState) (env : Env) :
    cleanup s env =
      if env.now - s.lastCleanup < s.cleanupInterval then s
      else
        { (if 100 * env.heapUsed > 70 * env.heapTotal then
             evictLoop (s.cache.length * 7 / 10) s
           else if s.cache.length > s.maxSize then
             evictLoop (s.cache.length - s.maxSize) s
           else s) with lastCleanup := env.now } := rfl

theorem cleanup_good {s : CacheState} (env : Env) (h : Good s) :
    Good (cleanup s env) ∧ (cleanup s env).cache.length ≤ s.cache.length ∧
      (cleanup s env).maxSize = s.maxSize ∧
      (cleanup s env).cleanupInterval = s.cleanupInterval := by
  rw [cleanup_eq]
  by_cases h1 : env.now - s.lastCleanup < s.cleanupInterval
  · rw [if_pos h1]
    exact ⟨h, le_refl _, rfl, rfl⟩
  · rw [if_neg h1]
    by_cases h2 : 100 * env.heapUsed > 70 * env.heapTotal
    · rw [if_pos h2]
      obtain ⟨hg, _, hlen, hms, _, hci⟩ := evictLoop_spec (s.cache.length * 7 / 10) h
      refine ⟨good_setLastCleanup _ hg, ?_, hms, hci⟩
      show (evictLoop (s.cache.length * 7 / 10) s).cache.length ≤ s.cache.length
      omega
    · rw [if_neg h2]
      by_cases h3 : s.cache.length > s.maxSize
      · rw [if_pos h3]
        obtain ⟨hg, _, hlen, hms, _, hci⟩ :=
          evictLoop_spec (s.cache.length - s.maxSize) h
        refine ⟨good_setLastCleanup _ hg, ?_, hms, hci⟩
        show (evictLoop (s.cache.length - s.maxSize) s).cache.length ≤ s.cache.length
        omega
      · rw [if_neg h3]
        exact ⟨good_setLastCleanup _ h, le_refl _, rfl, rfl⟩

theorem good_touch {s : CacheState} {t : String} (h : Good s) (hmem : t ∈ keys s.cache) :
    Good { s with accessOrder := s.accessOrder.filter (fun x => x ≠ t) ++ [t] } := by
  obtain ⟨ms, ca, ao, mu, lc, ci⟩ := s
  have horderNodup : ao.Nodup := h.orderNodup
  have horderIff : ∀ a, a ∈ ao ↔ a ∈ keys ca := h.orderIff
  have hlenEq : ca.length = ao.length := h.lenEq
  have hnoEmpty : ∀ a ∈ ao, a ≠ "" := h.noEmpty
  have hto : t ∈ ao := (horderIff t).2 hmem
  refine ⟨?_, h.cacheNodup, ?_, ?_, ?_, h.memNodup, h.memIff⟩
  · show (ao.filter (fun x => x ≠ t) ++ [t]).Nodup
    rw [List.nodup_append]
    refine ⟨horderNodup.filter _, List.nodup_singleton t, ?_⟩
    intro a ha hat
    rw [List.mem_singleton] at hat
    exact absurd hat (by simpa using (List.mem_filter.1 ha).2)
  · intro a
    show a ∈ ao.filter (fun x => x ≠ t) ++ [t] ↔ a ∈ keys ca
    by_cases hat : a = t
    · subst hat
      simp [hmem]
    · simp only [List.mem_append, List.mem_filter, List.mem_singleton, hat, or_false,
        decide_eq_true_eq]
      rw [horderIff a]
      simp [hat]
  · show ca.length = (ao.filter (fun x => x ≠ t) ++ [t]).length
    have := length_filter_ne_add_one horderNodup hto
    simp only [List.length_append, List.length_singleton]
    omega
  · intro a ha
    show a ≠ ""
    rcases List.mem_append.1 ha with h1 | h1
    · exact hnoEmpty a (List.mem_of_mem_filter h1)
    · rw [List.mem_singleton] at h1
      exact h1 ▸ hnoEmpty t hto

theorem good_setExisting {s : CacheState} {t : String} (e : Enforcer) (h : Good s)
    (hmem : t ∈ keys s.cache) :
    Good { s with cache := setKey t e s.cache
                  accessOrder := s.accessOrder.filter (fun x => x ≠ t) ++ [t] } := by
  have hkeys : keys (setKey t e s.cache) = keys s.cache := keys_setKey_of_mem e hmem
  have hbase := good_touch h hmem
  obtain ⟨ms, ca, ao, mu, lc, ci⟩ := s
  refine ⟨hbase.orderNodup, ?_, ?_, ?_, hbase.noEmpty, hbase.memNodup, ?_⟩
  · show (keys (setKey t e ca)).Nodup
    rw [hkeys]
    exact hbase.cacheNodup
  · intro a
    show a ∈ ao.filter (fun x => x ≠ t) ++ [t] ↔ a ∈ keys (setKey t e ca)
    rw [hkeys]
    exact hbase.orderIff a
  · show (setKey t e ca).length = (ao.filter (fun x => x ≠ t) ++ [t]).length
    rw [length_setKey_of_mem e hmem]
    exact hbase.lenEq
  · intro a
    show a ∈ keys mu ↔ a ∈ keys (setKey t e ca)
    rw [hkeys]
    exact hbase.memIff a

theorem good_insertNew {s : CacheState} {t : String} (e : Enforcer) (v : Nat) (h : Good s)
    (hmem : t ∉ keys s.cache) (ht : t ≠ "") :
    Good { s with cache := setKey t e s.cache
                  accessOrder := s.accessOrder ++ [t]
                  memoryUsage := setKey t v s.memoryUsage } := by
  have hkeys : keys (setKey t e s.cache) = keys s.cache ++ [t] :=
    keys_setKey_of_not_mem e hmem
  have hmemu : t ∉ keys s.memoryUsage := fun hc => hmem ((h.memIff t).1 hc)
  have hmkeys : keys (setKey t v s.memoryUsage) = keys s.memoryUsage ++ [t] :=
    keys_setKey_of_not_mem v hmemu
  have hto : t ∉ s.accessOrder := fun hc => hmem ((h.orderIff t).1 hc)
  obtain ⟨ms, ca, ao, mu, lc, ci⟩ := s
  refine ⟨?_, ?_, ?_, ?_, ?_, ?_, ?_⟩
  · show (ao ++ [t]).Nodup
    rw [List.nodup_append]
    exact ⟨h.orderNodup, List.nodup_singleton t,
      fun a ha hat => hto ((List.mem_singleton.1 hat) ▸ ha)⟩
  · show (keys (setKey t e ca)).Nodup
    rw [hkeys, List.nodup_append]
    exact ⟨h.cacheNodup, List.nodup_singleton t,
      fun a ha hat => hmem ((List.mem_singleton.1 hat) ▸ ha)⟩
  · intro a
    show a ∈ ao ++ [t] ↔ a ∈ keys (setKey t e ca)
    rw [hkeys]
    simp only [List.mem_append]
    rw [h.orderIff a]
  · show (setKey t e ca).length = (ao ++ [t]).length
    rw [length_setKey_of_not_mem e hmem]
    simp only [List.length_append, List.length_singleton]
    rw [h.lenEq]
  · intro a ha
    show a ≠ ""
    rcases List.mem_append.1 ha with h1 | h1
    · exact h.noEmpty a h1
    · exact (List.mem_singleton.1 h1) ▸ ht
  · show (keys (setKey t v mu)).Nodup
    rw [hmkeys, List.nodup_append]
    exact ⟨h.memNodup, List.nodup_singleton t,
      fun a ha hat => hmemu ((List.mem_singleton.1 hat) ▸ ha)⟩
  · intro a
    show a ∈ keys (setKey t v mu) ↔ a ∈ keys (setKey t e ca)
    rw [hkeys, hmkeys]
    simp only [List.mem_append]
    rw [h.memIff a]

theorem cacheGet_eq (s : CacheState) (t : String) (env : Env) :
    cacheGet s t env =
      if t ∈ keys (cleanup s env).cache then
        ({ cleanup s env with
             accessOrder := (cleanup s env).accessOrder.filter (fun x => x ≠ t) ++ [t] },
         lookupKey t (cleanup s env).cache)
      else (cleanup s env, none) := rfl

theorem cacheSet_eq (s : CacheState) (t : String) (e : Enforcer) (env : Env) :
    cacheSet s t e env =
      if t ∈ keys (cleanup s env).cache then
        { cleanup s env with
            cache := setKey t e (cleanup s env).cache
            accessOrder := (cleanup s env).accessOrder.filter (fun x => x ≠ t) ++ [t] }
      else
        { (if (cleanup s env).cache.length ≥ (cleanup s env).maxSize then
             shiftEvict (cleanup s env)
           else cleanup s env) with
            cache := setKey t e (if (cleanup s env).cache.length ≥ (cleanup s env).maxSize
                                 then shiftEvict (cleanup s env) else cleanup s env).cache
            accessOrder := (if (cleanup s env).cache.length ≥ (cleanup s env).maxSize
                            then shiftEvict (cleanup s env)
                            else cleanup s env).accessOrder ++ [t]
            memoryUsage := setKey t (estimateEnforcerMemory e)
              (if (cleanup s env).cache.length ≥ (cleanup s env).maxSize
               then shiftEvict (cleanup s env) else cleanup s env).memoryUsage } := rfl

theorem cacheGet_good {s : CacheState} (t : String) (env : Env) (h : Good s) :
    Good (cacheGet s t env).1 ∧
      (cacheGet s t env).1.cache.length ≤ s.cache.length ∧
      (cacheGet s t env).1.maxSize = s.maxSize ∧
      (cacheGet s t env).1.cleanupInterval = s.cleanupInterval := by
  obtain ⟨hg, hlen, hms, hci⟩ := cleanup_good env h
  rw [cacheGet_eq]
  by_cases hmem : t ∈ keys (cleanup s env).cache
  · rw [if_pos hmem]
    refine ⟨good_touch hg hmem, ?_, hms, hci⟩
    show (cleanup s env).cache.length ≤ s.cache.length
    exact hlen
  · rw [if_neg hmem]
    exact ⟨hg, hlen, hms, hci⟩

theorem cacheSet_good {s : CacheState} (t : String) (e : Enforcer) (env : Env)
    (h : Good s) (ht : t ≠ "") :
    Good (cacheSet s t e env) ∧
      (1 ≤ s.maxSize → (cacheSet s t e env).cache.length ≤ max s.cache.length s.maxSize) ∧
      (cacheSet s t e env).maxSize = s.maxSize ∧
      (cacheSet s t e env).cleanupInterval = s.cleanupInterval := by
  obtain ⟨hg, hlen, hms, hci⟩ := cleanup_good env h
  rw [cacheSet_eq]
  by_cases hmem : t ∈ keys (cleanup s env).cache
  · rw [if_pos hmem]
    refine ⟨good_setExisting e hg hmem, ?_, hms, hci⟩
    intro _
    show (setKey t e (cleanup s env).cache).length ≤ max s.cache.length s.maxSize
    rw [length_setKey_of_mem e hmem]
    exact le_trans hlen (le_max_left _ _)
  · rw [if_neg hmem]
    by_cases hcap : (cleanup s env).cache.length ≥ (cleanup s env).maxSize
    · rw [if_pos hcap]
      obtain ⟨hg2, _, hlen2, hms2, _, _⟩ := shiftEvict_spec hg
      have hmem2 : t ∉ keys (shiftEvict (cleanup s env)).cache :=
        fun hc => hmem (keys_shiftEvict_subset t hc)
      refine ⟨good_insertNew e _ hg2 hmem2 ht, ?_, ?_, ?_⟩
      · intro hms1
        show (setKey t e (shiftEvict (cleanup s env)).cache).length ≤
          max s.cache.length s.maxSize
        rw [length_setKey_of_not_mem e hmem2]
        have hcap' : 1 ≤ (cleanup s env).cache.length := by
          rw [hms] at hcap
          omega
        have : (shiftEvict (cleanup s env)).cache.length + 1 ≤ s.cache.length := by
          omega
        exact le_trans this (le_max_left _ _)
      · show (shiftEvict (cleanup s env)).maxSize = s.maxSize
        rw [hms2, hms]
      · show (shiftEvict (cleanup s env)).cleanupInterval = s.cleanupInterval
        rw [(shiftEvict_spec hg).2.2.2.2.2, hci]
    · rw [if_neg hcap]
      refine ⟨good_insertNew e _ hg hmem ht, ?_, hms, hci⟩
      intro _
      show (setKey t e (cleanup s env).cache).length ≤ max s.cache.length s.maxSize
      rw [length_setKey_of_not_mem e hmem]
      rw [hms] at hcap
      have : (cleanup s env).cache.length + 1 ≤ s.maxSize := by omega
      exact le_trans this (le_max_right _ _)

theorem length_eraseKey_le (k : String) (m : List (String × α)) :
    (eraseKey k m).length ≤ m.length :=
  List.length_filter_le _ m

theorem good_mkCache (maxSize now0 : Nat) : Good (mkCache maxSize now0) := by
  refine ⟨List.nodup_nil, List.nodup_nil, ?_, rfl, ?_, List.nodup_nil, ?_⟩
  · intro t
    exact Iff.rfl
  · intro t ht
    simp [mkCache] at ht
  · intro t
    exact Iff.rfl

theorem applyOp_inv {s : CacheState} {op : CacheOp} (h : Good s)
    (hb : s.cache.length ≤ s.maxSize) (hms1 : 1 ≤ s.maxSize) (hop : op.tenant ≠ "") :
    Good (applyOp s op) ∧ (applyOp s op).cache.length ≤ (applyOp s op).maxSize ∧
      (applyOp s op).maxSize = s.maxSize := by
  cases op with
  | get t env =>
    simp only [applyOp]
    obtain ⟨hg, hlen, hms, _⟩ := cacheGet_good t env h
    exact ⟨hg, by rw [hms]; omega, hms⟩
  | set t e env =>
    simp only [applyOp]
    have ht : t ≠ "" := hop
    obtain ⟨hg, hlen, hms, _⟩ := cacheSet_good t e env h ht
    refine ⟨hg, ?_, hms⟩
    rw [hms]
    have := hlen hms1
    omega
  | delete t =>
    refine ⟨good_evictTenant t h, ?_, rfl⟩
    show (eraseKey t s.cache).length ≤ s.maxSize
    exact le_trans (length_eraseKey_le t s.cache) hb

theorem runOps_inv {s : CacheState} (h : Good s) (hb : s.cache.length ≤ s.maxSize)
    (hms1 : 1 ≤ s.maxSize) {ops : List CacheOp} (hops : ∀ op ∈ ops, op.tenant ≠ "") :
    Good (runOps s ops) ∧ (runOps s ops).cache.length ≤ (runOps s ops).maxSize ∧
      (runOps s ops).maxSize = s.maxSize := by
  induction ops generalizing s with
  | nil => exact ⟨h, hb, rfl⟩
  | cons op rest ih =>
    have hop : op.tenant ≠ "" := hops op (List.mem_cons_self op rest)
    obtain ⟨hg, hb', hms⟩ := applyOp_inv h hb hms1 hop
    have hrest : ∀ o ∈ rest, o.tenant ≠ "" :=
      fun o ho => hops o (List.mem_cons_of_mem op ho)
    have hms1' : 1 ≤ (applyOp s op).maxSize := by rw [hms]; exact hms1
    obtain ⟨hg2, hb2, hms2⟩ := ih hg hb' hms1' hrest
    have hred : runOps s (op :: rest) = runOps (applyOp s op) rest := rfl
    rw [hred]
    exact ⟨hg2, hb2, by rw [hms2, hms]⟩

/-! ## Claim theorems -/

/-- C6: if `refreshTenantPolicies(tenant)` fails while building the replacement
Policy Engine Instance, the cache is left entirely unchanged — in particular
the previous entry for that tenant is neither evicted nor replaced; the entry
is swapped only after a successful build. -/
theorem refresh_atomic_failure_c6 (s : CacheState) (tenant msg : String) (env : Env) :
    refreshTenantPolicies s tenant (Except.error msg) env = s ∧
      lookupKey tenant (refreshTenantPolicies s tenant (Except.error msg) env).cache =
        lookupKey tenant s.cache :=
  ⟨rfl, rfl⟩

/-- C7 (counterexample): the claim "otherwise the handler triggers a full cache
refresh for exactly the tenant named in the event" fails: with `SERVER_ID`
configured as replica-A on port 3000, an event from a different replica whose
identity happens to be the port-derived default server-3000 is skipped even
though it does not equal this replica's own identity replica-A. -/
theorem invalidation_c7_counterexample :
    ownServerId { serverId := some "replica-A", port := none } ≠ "server-3000" ∧
      handleTenantRefresh { serverId := some "replica-A", port := none }
        { tenant := "t1", operation := "add-permission", serverId := "server-3000",
          timestamp := "2024-01-01" } = none := by
  constructor
  · decide
  · decide

/-- C7 (amended): the handler never refreshes on an event carrying this
replica's own published identity; it skips exactly the events whose serverId
equals the configured `SERVER_ID` or the port-derived default identity
`server-PORT` (a strict superset of the own identity), and any event it does
not skip triggers a refresh for exactly the tenant named in the event. -/
theorem invalidation_c7_amended (cfg : ReplicaConfig) (ev : RefreshEvent) :
    (ownServerId cfg = ev.serverId → handleTenantRefresh cfg ev = none) ∧
      (handleTenantRefresh cfg ev = none ↔
        cfg.serverId = some ev.serverId ∨ ev.serverId = defaultPortId cfg) ∧
      (handleTenantRefresh cfg ev ≠ none →
        handleTenantRefresh cfg ev = some ev.tenant) := by
  refine ⟨?_, ?_, ?_⟩
  · intro hid
    have hskip : cfg.serverId = some ev.serverId ∨ ev.serverId = defaultPortId cfg := by
      unfold ownServerId jsOr at hid
      cases hcfg : cfg.serverId with
      | none =>
        rw [hcfg] at hid
        exact Or.inr hid.symm
      | some str =>
        rw [hcfg] at hid
        by_cases hstr : str = ""
        · right
          have hdp : defaultPortId cfg = ev.serverId := by
            rw [← hid]
            show defaultPortId cfg = if str = "" then defaultPortId cfg else str
            rw [if_pos hstr]
          exact hdp.symm
        · left
          have hsv : str = ev.serverId := by
            rw [← hid]
            show str = if str = "" then defaultPortId cfg else str
            rw [if_neg hstr]
          exact congrArg some hsv
    simp [handleTenantRefresh, hskip]
  · unfold handleTenantRefresh
    by_cases hc : cfg.serverId = some ev.serverId ∨ ev.serverId = defaultPortId cfg
    · simp [hc]
    · simp [hc]
  · intro hsome
    unfold handleTenantRefresh at hsome ⊢
    by_cases hc : cfg.serverId = some ev.serverId ∨ ev.serverId = defaultPortId cfg
    · exact absurd (if_pos hc) hsome
    · exact if_neg hc

/-- C7 (witness for the amended theorem): concrete instantiation — an event
carrying the replica's own identity is ignored, and an event from another
replica leads to a refresh of exactly the named tenant. -/
theorem invalidation_c7_amended_witness :
    handleTenantRefresh { serverId := some "replica-A", port := none }
        { tenant := "t9", operation := "op", serverId := "replica-A",
          timestamp := "ts" } = none ∧
      handleTenantRefresh { serverId := some "replica-A", port := none }
        { tenant := "t9", operation := "op", serverId := "replica-B",
          timestamp := "ts" } = some "t9" :=
  ⟨(invalidation_c7_amended { serverId := some "replica-A", port := none }
      { tenant := "t9", operation := "op", serverId := "replica-A",
        timestamp := "ts" }).1 (by decide),
   (invalidation_c7_amended { serverId := some "replica-A", port := none }
      { tenant := "t9", operation := "op", serverId := "replica-B",
        timestamp := "ts" }).2.2 (by decide)⟩

/-- C9: the duplicate pre-check fails open — when database checks are disabled
via the runtime toggle, or when the count query against the store fails, the
pre-check reports no duplicate and the add-permission write path proceeds
instead of surfacing a store-unavailable error. -/
theorem fail_open_c9 (dbCheckEnabled : Bool) (queryResult : StoreResult)
    (h : dbCheckEnabled = false ∨ ∃ msg, queryResult = StoreResult.err msg) :
    checkDatabaseDuplicate dbCheckEnabled queryResult = false ∧
      addPermissionPrecheck (checkDatabaseDuplicate dbCheckEnabled queryResult) =
        WriteStep.writeProceeds := by
  have h1 : checkDatabaseDuplicate dbCheckEnabled queryResult = false := by
    rcases h with h | ⟨msg, rfl⟩
    · subst h
      rfl
    · cases dbCheckEnabled <;> rfl
  exact ⟨h1, by rw [h1]; rfl⟩

/-- C9 (witness): with checks enabled and a failing count query, the pre-check
returns false and the write proceeds. -/
theorem fail_open_c9_witness :
    checkDatabaseDuplicate true (StoreResult.err "timeout") = false ∧
      addPermissionPrecheck (checkDatabaseDuplicate true (StoreResult.err "timeout")) =
        WriteStep.writeProceeds :=
  fail_open_c9 true (StoreResult.err "timeout") (Or.inr ⟨"timeout", rfl⟩)

theorem rateLimitCheck_eq (w m : Nat) (record : List Int) (now : Int) :
    rateLimitCheck w m record now =
      if m ≤ (record.filter (fun ts => now - (w : Int) < ts)).length then
        (record.filter (fun ts => now - (w : Int) < ts), some ((w + 999) / 1000))
      else (record.filter (fun ts => now - (w : Int) < ts) ++ [now], none) := rfl

/-- C8: the sliding-window rate limiter evicts timestamps older than the
window on every check (every timestamp it stores lies strictly inside the
window), rejects with the retry-after hint exactly when the in-window count
has reached the ceiling, and admits the request otherwise. -/
theorem rate_limit_c8 (windowMs maxRequests : Nat) (record : List Int) (now : Int)
    (hw : 0 < windowMs) :
    (∀ ts ∈ (rateLimitCheck windowMs maxRequests record now).1,
        now - (windowMs : Int) < ts) ∧
      ((rateLimitCheck windowMs maxRequests record now).2.isSome ↔
        maxRequests ≤ (record.filter (fun ts => now - (windowMs : Int) < ts)).length) ∧
      ((rateLimitCheck windowMs maxRequests record now).2 = none ∨
        (rateLimitCheck windowMs maxRequests record now).2 =
          some ((windowMs + 999) / 1000)) := by
  rw [rateLimitCheck_eq]
  by_cases hful :
      maxRequests ≤ (record.filter (fun ts => now - (windowMs : Int) < ts)).length
  · rw [if_pos hful]
    refine ⟨?_, by simpa using hful, Or.inr rfl⟩
    intro ts hts
    simpa using (List.mem_filter.1 hts).2
  · rw [if_neg hful]
    refine ⟨?_, by simpa using hful, Or.inl rfl⟩
    intro ts hts
    rcases List.mem_append.1 hts with h1 | h1
    · simpa using (List.mem_filter.1 h1).2
    · rw [List.mem_singleton] at h1
      subst h1
      have hwz : (0 : Int) < (windowMs : Int) := by exact_mod_cast hw
      omega

/-- C8 (witness): with a 60-second window and a ceiling of 1, a client with one
in-window timestamp is rejected, and the stored record retains only in-window
timestamps. -/
theorem rate_limit_c8_witness :
    ((rateLimitCheck 60000 1 [(5 : Int)] 10).2.isSome ↔
      1 ≤ ([(5 : Int)].filter (fun ts => (10 : Int) - ((60000 : Nat) : Int) < ts)).length) :=
  (rate_limit_c8 60000 1 [(5 : Int)] 10 (by decide)).2.1

theorem runRateLimiter_cons (w m : Nat) (record : List Int) (now : Int)
    (rest : List Int) :
    runRateLimiter w m record (now :: rest) =
      ((runRateLimiter w m (rateLimitCheck w m record now).1 rest).1,
       (if (rateLimitCheck w m record now).2 = none then [now] else []) ++
         (runRateLimiter w m (rateLimitCheck w m record now).1 rest).2) := rfl

theorem runRateLimiter_mem_admitted (w m : Nat) :
    ∀ (arrivals record : List Int) (ts : Int),
      ts ∈ (runRateLimiter w m record arrivals).1 →
      ts ∈ record ∨ ts ∈ (runRateLimiter w m record arrivals).2 := by
  intro arrivals
  induction arrivals with
  | nil =>
    intro record ts h
    exact Or.inl h
  | cons now rest ih =>
    intro record ts h
    rw [runRateLimiter_cons] at h ⊢
    rcases ih (rateLimitCheck w m record now).1 ts h with h1 | h1
    · rw [rateLimitCheck_eq] at h1
      by_cases hful : m ≤ (record.filter (fun x => now - (w : Int) < x)).length
      · rw [if_pos hful] at h1
        exact Or.inl (List.mem_of_mem_filter h1)
      · rw [if_neg hful] at h1
        rcases List.mem_append.1 h1 with h2 | h2
        · exact Or.inl (List.mem_of_mem_filter h2)
        · rw [List.mem_singleton] at h2
          subst h2
          refine Or.inr (List.mem_append.2 (Or.inl ?_))
          have hnone : (rateLimitCheck w m record ts).2 = none := by
            rw [rateLimitCheck_eq, if_neg hful]
          rw [if_pos hnone]
          exact List.mem_singleton.2 rfl
    · exact Or.inr (List.mem_append.2 (Or.inr h1))

/-- C10: rejected requests consume no rate-limit quota — a rejection stores the
eviction-filtered record with nothing appended, and over any sequence of
arrivals from one client every timestamp remaining in the stored record is the
arrival time of an admitted request. -/
theorem rate_limit_no_quota_c10 :
    (∀ (windowMs maxRequests : Nat) (record : List Int) (now : Int),
      (rateLimitCheck windowMs maxRequests record now).2.isSome →
      (rateLimitCheck windowMs maxRequests record now).1 =
        record.filter (fun ts => now - (windowMs : Int) < ts)) ∧
      (∀ (windowMs maxRequests : Nat) (arrivals : List Int) (ts : Int),
        ts ∈ (runRateLimiter windowMs maxRequests [] arrivals).1 →
        ts ∈ (runRateLimiter windowMs maxRequests [] arrivals).2) := by
  constructor
  · intro w m record now h
    rw [rateLimitCheck_eq] at h ⊢
    by_cases hful : m ≤ (record.filter (fun ts => now - (w : Int) < ts)).length
    · rw [if_pos hful]
    · rw [if_neg hful] at h
      simp at h
  · intro w m arrivals ts h
    rcases runRateLimiter_mem_admitted w m arrivals [] ts h with h1 | h1
    · simp at h1
    · exact h1

/-- C10 (witness): a client at its ceiling is rejected and its stored record is
exactly the filtered previous record, with the rejected arrival not appended. -/
theorem rate_limit_no_quota_c10_witness :
    (rateLimitCheck 60000 1 [(5 : Int)] 10).1 =
      [(5 : Int)].filter (fun ts => (10 : Int) - ((60000 : Nat) : Int) < ts) :=
  rate_limit_no_quota_c10.1 60000 1 [(5 : Int)] 10 (by decide)

theorem processQueue_bound (s : RequestQueue) (now : Nat) :
    (processQueue s now).queue.length ≤ s.queue.length ∧
      (processQueue s now).maxQueueSize = s.maxQueueSize := by
  unfold processQueue
  by_cases h1 : s.running ≥ s.maxConcurrent
  · rw [if_pos h1]
    exact ⟨le_refl _, rfl⟩
  · rw [if_neg h1]
    cases hq : s.queue with
    | nil => exact ⟨le_of_eq (congrArg List.length hq), rfl⟩
    | cons e rest =>
      refine ⟨?_, rfl⟩
      show rest.length ≤ (e :: rest).length
      simp

theorem addRequest_bound (s : RequestQueue) (task now : Nat)
    (h : s.queue.length ≤ s.maxQueueSize) :
    (addRequest s task now).1.queue.length ≤ s.maxQueueSize ∧
      (addRequest s task now).1.maxQueueSize = s.maxQueueSize := by
  unfold addRequest
  by_cases hful : s.queue.length ≥ s.maxQueueSize
  · rw [if_pos hful]
    exact ⟨h, rfl⟩
  · rw [if_neg hful]
    obtain ⟨h1, h2⟩ := processQueue_bound
      { s with queue := s.queue ++ [{ task := task, timestamp := now }]
               stats := { s.stats with
                          totalRequests := s.stats.totalRequests + 1
                          queuedRequests := s.stats.queuedRequests + 1 } } now
    refine ⟨le_trans h1 ?_, h2⟩
    show (s.queue ++ [({ task := task, timestamp := now } : QueueEntry)]).length ≤
      s.maxQueueSize
    rw [List.length_append, List.length_singleton]
    omega

/-- C4: `RequestQueue.add` fails with the queue-full error exactly when the
waiting queue already holds `maxQueueSize` entries at submission time (given
the reachable-state invariant that the queue never exceeds `maxQueueSize`);
and with `maxConcurrent = 1, maxQueueSize = 1`, three submissions of
long-running tasks yield the first accepted and dispatched, the second queued,
the third rejected — final state: 1 running, 1 queued, 1 rejected. -/
theorem queue_backpressure_c4 :
    (∀ (s : RequestQueue) (task now : Nat), s.queue.length ≤ s.maxQueueSize →
      ((addRequest s task now).2 = AddResult.queueFull ↔
        s.queue.length = s.maxQueueSize)) ∧
      (addRequest (mkRequestQueue 1 1) 0 0).2 = AddResult.pending ∧
      (addRequest (addRequest (mkRequestQueue 1 1) 0 0).1 1 0).2 = AddResult.pending ∧
      (addRequest (addRequest (addRequest (mkRequestQueue 1 1) 0 0).1 1 0).1 2 0).2 =
        AddResult.queueFull ∧
      (addRequest (addRequest (addRequest (mkRequestQueue 1 1) 0 0).1 1 0).1 2
        0).1.running = 1 ∧
      (addRequest (addRequest (addRequest (mkRequestQueue 1 1) 0 0).1 1 0).1 2
        0).1.queue.length = 1 ∧
      (addRequest (addRequest (addRequest (mkRequestQueue 1 1) 0 0).1 1 0).1 2
        0).1.stats.rejectedRequests = 1 := by
  refine ⟨?_, by decide, by decide, by decide, by decide, by decide, by decide⟩
  intro s task now hinv
  by_cases hful : s.queue.length ≥ s.maxQueueSize
  · have h2 : (addRequest s task now).2 = AddResult.queueFull := by
      unfold addRequest
      rw [if_pos hful]
    rw [h2]
    exact ⟨fun _ => le_antisymm hinv hful, fun _ => rfl⟩
  · have h2 : (addRequest s task now).2 = AddResult.pending := by
      unfold addRequest
      rw [if_neg hful]
    rw [h2]
    exact ⟨fun hc => AddResult.noConfusion hc,
      fun heq => (hful (le_of_eq heq.symm)).elim⟩

/-- C4 (witness): starting from the one-running-one-queued state reached after
two submissions, a third submission is rejected because the queue holds
`maxQueueSize` entries. -/
theorem queue_backpressure_c4_witness :
    ((addRequest (addRequest (addRequest (mkRequestQueue 1 1) 0 0).1 1 0).1 2 0).2 =
        AddResult.queueFull ↔
      (addRequest (addRequest (mkRequestQueue 1 1) 0 0).1 1 0).1.queue.length =
        (addRequest (addRequest (mkRequestQueue 1 1) 0 0).1 1 0).1.maxQueueSize) :=
  queue_backpressure_c4.1 (addRequest (addRequest (mkRequestQueue 1 1) 0 0).1 1 0).1
    2 0 (by decide)

theorem cacheSet_mkCache_first (t1 : String) (e1 : Enforcer) :
    cacheSet (mkCache 50 0) t1 e1 ⟨0, 0, 100⟩ =
      ⟨50, [(t1, e1)], [t1], [(t1, estimateEnforcerMemory e1)], 0, 30000⟩ := rfl

theorem cache_two_set_lookup (t1 t2 : String) (e1 e2 : Enforcer) (hne : t1 ≠ t2) :
    lookupKey t1 (cacheSet (cacheSet (mkCache 50 0) t1 e1 ⟨0, 0, 100⟩) t2 e2
      ⟨0, 0, 100⟩).cache = some e1 := by
  rw [cacheSet_mkCache_first, cacheSet_eq]
  have hcl : cleanup ⟨50, [(t1, e1)], [t1], [(t1, estimateEnforcerMemory e1)], 0, 30000⟩
      ⟨0, 0, 100⟩ = ⟨50, [(t1, e1)], [t1], [(t1, estimateEnforcerMemory e1)], 0, 30000⟩ :=
    rfl
  rw [hcl]
  have hmem : t2 ∉ keys ((⟨50, [(t1, e1)], [t1], [(t1, estimateEnforcerMemory e1)], 0,
      30000⟩ : CacheState)).cache := by
    show t2 ∉ keys [(t1, e1)]
    simp only [keys, List.map_cons, List.map_nil, List.mem_singleton]
    exact fun hc => hne hc.symm
  rw [if_neg hmem]
  have hcap : ¬ (((⟨50, [(t1, e1)], [t1], [(t1, estimateEnforcerMemory e1)], 0,
      30000⟩ : CacheState)).cache.length ≥
      ((⟨50, [(t1, e1)], [t1], [(t1, estimateEnforcerMemory e1)], 0,
      30000⟩ : CacheState)).maxSize) := by
    show ¬ ((1 : Nat) ≥ 50)
    decide
  rw [if_neg hcap]
  show lookupKey t1 (setKey t2 e2 [(t1, e1)]) = some e1
  simp [setKey, lookupKey, hne]

/-- C1: tenant isolation — the Policy Engine Instance built by
`TenantAwareAdapter.loadPolicy` for tenant T1 contains only rules whose tenant
field equals T1; hence for T1 ≠ T2, after loading both tenants into the
cache, T1's cached instance lists no rule whose tenant field is T2. -/
theorem tenant_isolation_c1 (t1 t2 : String) (table : List CasbinRow)
    (hne : t1 ≠ t2) (hwf : WFTable table) :
    (∀ rule ∈ (loadPolicy t1 table).policies, pRuleTenant rule ≠ some t2) ∧
      (∀ rule ∈ (loadPolicy t1 table).groupingPolicies, gRuleTenant rule ≠ some t2) ∧
      lookupKey t1 (cacheSet (cacheSet (mkCache 50 0) t1 (loadPolicy t1 table)
        ⟨0, 0, 100⟩) t2 (loadPolicy t2 table) ⟨0, 0, 100⟩).cache =
        some (loadPolicy t1 table) := by
  refine ⟨?_, ?_, cache_two_set_lookup t1 t2 _ _ hne⟩
  · intro rule hrule
    simp only [loadPolicy, List.mem_map] at hrule
    obtain ⟨r, hrmem, rfl⟩ := hrule
    rw [List.mem_filter] at hrmem
    obtain ⟨hrtab, hcond⟩ := hrmem
    have hp : r.ptype = "p" ∧ r.v3 = some t1 := by simpa using hcond
    obtain ⟨hwf0, hwf1, hwf2⟩ := hwf r hrtab hp.1
    obtain ⟨a0, ha0⟩ := Option.isSome_iff_exists.1 hwf0
    obtain ⟨a1, ha1⟩ := Option.isSome_iff_exists.1 hwf1
    obtain ⟨a2, ha2⟩ := Option.isSome_iff_exists.1 hwf2
    rw [ha0, ha1, ha2, hp.2]
    cases hv4 : r.v4 with
    | none =>
      simp [pRuleTenant, List.filter]
      exact hne
    | some a4 =>
      simp [pRuleTenant, List.filter]
      exact hne
  · intro rule hrule
    simp only [loadPolicy, List.mem_map] at hrule
    obtain ⟨r, hrmem, rfl⟩ := hrule
    rw [List.mem_filter] at hrmem
    have hg : r.ptype = "g" ∧ r.v2 = some t1 := by simpa using hrmem.2
    simp [gRuleTenant, hg.2]
    exact hne

/-- C1 (witness): on a concrete shared table holding rows of tenants t1 and
t2, the instance loaded for t1 has no rule carrying tenant t2, and after
loading both tenants the cache still maps t1 to t1's own instance. -/
theorem tenant_isolation_c1_witness :
    (∀ rule ∈ (loadPolicy "t1" sampleTable).policies, pRuleTenant rule ≠ some "t2") ∧
      (∀ rule ∈ (loadPolicy "t1" sampleTable).groupingPolicies,
        gRuleTenant rule ≠ some "t2") ∧
      lookupKey "t1" (cacheSet (cacheSet (mkCache 50 0) "t1"
        (loadPolicy "t1" sampleTable) ⟨0, 0, 100⟩) "t2"
        (loadPolicy "t2" sampleTable) ⟨0, 0, 100⟩).cache =
        some (loadPolicy "t1" sampleTable) :=
  tenant_isolation_c1 "t1" "t2" sampleTable (by decide)
    (by
      show ∀ r ∈ sampleTable, r.ptype = "p" → r.v0.isSome ∧ r.v1.isSome ∧ r.v2.isSome
      decide)

/-- C2 (counterexample): at 75% heap usage — elevated but not critical
(75% ≤ 85%) — with the cache far under its entry-count capacity, the claim
predicts a due cleanup evicts nothing (there is no overflow), but the code's
aggressive branch fires at any usage above 70% and evicts 70% of the entries:
of 2 cached tenants only 1 survives. -/
theorem cleanup_two_tier_c2_counterexample :
    100 * pressureEnv.heapUsed ≤ 85 * pressureEnv.heapTotal ∧
      pressureState.cache.length ≤ pressureState.maxSize ∧
      pressureState.cache.length = 2 ∧
      (cleanup pressureState pressureEnv).cache.length = 1 := by
  decide

/-- C2 (amended): whenever cleanup() runs past its rate-limit interval, if
heap usage exceeds 70% of heap capacity — elevated pressure and above, not
only critical — it evicts `floor(0.7 * size)` entries in LRU order (from the
head of the access order) regardless of capacity headroom; at 70% or below
it evicts only the overflow beyond maxSize. -/
theorem cleanup_two_tier_c2_amended (s : CacheState) (env : Env) (h : Good s)
    (hdue : ¬ (env.now - s.lastCleanup < s.cleanupInterval)) :
    (100 * env.heapUsed > 70 * env.heapTotal →
      (cleanup s env).accessOrder = s.accessOrder.drop (s.cache.length * 7 / 10) ∧
      (cleanup s env).cache.length = s.cache.length - s.cache.length * 7 / 10) ∧
      (¬ (100 * env.heapUsed > 70 * env.heapTotal) →
        (cleanup s env).accessOrder = s.accessOrder.drop (s.cache.length - s.maxSize) ∧
        (cleanup s env).cache.length = min s.cache.length s.maxSize) := by
  rw [cleanup_eq, if_neg hdue]
  constructor
  · intro h2
    rw [if_pos h2]
    obtain ⟨_, hao, hlen, _, _, _⟩ := evictLoop_spec (s.cache.length * 7 / 10) h
    constructor
    · show (evictLoop (s.cache.length * 7 / 10) s).accessOrder = _
      exact hao
    · show (evictLoop (s.cache.length * 7 / 10) s).cache.length = _
      exact hlen
  · intro h2
    rw [if_neg h2]
    by_cases h3 : s.cache.length > s.maxSize
    · rw [if_pos h3]
      obtain ⟨_, hao, hlen, _, _, _⟩ := evictLoop_spec (s.cache.length - s.maxSize) h
      constructor
      · show (evictLoop (s.cache.length - s.maxSize) s).accessOrder = _
        exact hao
      · show (evictLoop (s.cache.length - s.maxSize) s).cache.length = _
        rw [hlen]
        omega
    · rw [if_neg h3]
      constructor
      · show s.accessOrder = s.accessOrder.drop (s.cache.length - s.maxSize)
        have hz : s.cache.length - s.maxSize = 0 := by omega
        rw [hz, List.drop_zero]
      · show s.cache.length = min s.cache.length s.maxSize
        omega

/-- C2 (witness for the amended theorem): on the concrete two-tenant cache at
75% heap usage, a due cleanup drops 70% of the access order from the LRU head
and shrinks the cache accordingly. -/
theorem cleanup_two_tier_c2_amended_witness :
    (cleanup pressureState pressureEnv).accessOrder =
      pressureState.accessOrder.drop (pressureState.cache.length * 7 / 10) ∧
      (cleanup pressureState pressureEnv).cache.length =
        pressureState.cache.length - pressureState.cache.length * 7 / 10 :=
  (cleanup_two_tier_c2_amended pressureState pressureEnv
    ⟨by decide, by decide, fun t => Iff.rfl, rfl, by decide, by decide,
     fun t => Iff.rfl⟩
    (by decide)).1 (by decide)

theorem shiftEvict_cache_cons {s : CacheState} {lru : String} {rest : List String}
    (horder : s.accessOrder = lru :: rest) (hne : lru ≠ "") :
    (shiftEvict s).cache = eraseKey lru s.cache := by
  obtain ⟨ms, ca, ao, mu, lc, ci⟩ := s
  have hao : ao = lru :: rest := horder
  subst hao
  show (if lru = "" then CacheState.mk ms ca rest mu lc ci
      else evictTenant (CacheState.mk ms ca rest mu lc ci) lru).cache = eraseKey lru ca
  rw [if_neg hne]
  rfl

/-- C3 (counterexample): the cache bound fails for the empty-string tenant:
with maxSize 1, caching tenant "" and then a second tenant leaves 2 entries,
because the JS truthiness guard `if (lruTenant)` skips `evictTenant` when the
shifted LRU key is the empty string (falsy), so the full entry is never
removed from the map. -/
theorem cache_bound_c3_counterexample :
    (mkCache 1 0).maxSize = 1 ∧
      (runOps (mkCache 1 0)
        [CacheOp.set "" ⟨[], []⟩ ⟨0, 0, 100⟩,
         CacheOp.set "x" ⟨[], []⟩ ⟨0, 0, 100⟩]).cache.length = 2 := by
  decide

/-- C3 (amended): for every sequence of get/set/delete operations whose tenant
identifiers are nonempty strings, starting from a fresh cache with
maxSize ≥ 1, the number of cached entries never exceeds maxSize after an
operation completes; and inserting a new tenant while the cache is at
capacity evicts the LRU tenant (the head of the access order) before the new
entry is added. -/
theorem cache_bound_c3_amended :
    (∀ (maxSize now0 : Nat) (ops : List CacheOp), 1 ≤ maxSize →
      (∀ op ∈ ops, op.tenant ≠ "") →
      (runOps (mkCache maxSize now0) ops).cache.length ≤ maxSize) ∧
      (∀ (s : CacheState) (t : String) (e : Enforcer) (env : Env) (lru : String)
        (rest : List String), Good s → t ∉ keys (cleanup s env).cache →
        (cleanup s env).cache.length ≥ s.maxSize →
        (cleanup s env).accessOrder = lru :: rest →
        lru ∉ keys (cacheSet s t e env).cache ∧
          t ∈ keys (cacheSet s t e env).cache) := by
  constructor
  · intro maxSize now0 ops hms hops
    obtain ⟨_, hb, hmseq⟩ :=
      runOps_inv (good_mkCache maxSize now0) (Nat.zero_le maxSize) hms hops
    rw [hmseq] at hb
    exact hb
  · intro s t e env lru rest hGood hmem hcap horder
    obtain ⟨hg, _, hms, _⟩ := cleanup_good env hGood
    have hlru_mem : lru ∈ keys (cleanup s env).cache :=
      (hg.orderIff lru).1 (by rw [horder]; exact List.mem_cons_self _ _)
    have hlru_ne_t : lru ≠ t := fun hc => hmem (hc ▸ hlru_mem)
    have hlru_ne : lru ≠ "" :=
      hg.noEmpty lru (by rw [horder]; exact List.mem_cons_self _ _)
    have hcap' : (cleanup s env).cache.length ≥ (cleanup s env).maxSize := by
      rw [hms]
      exact hcap
    rw [cacheSet_eq, if_neg hmem, if_pos hcap']
    have hshift : (shiftEvict (cleanup s env)).cache =
        eraseKey lru (cleanup s env).cache := shiftEvict_cache_cons horder hlru_ne
    have htshift : t ∉ keys (shiftEvict (cleanup s env)).cache :=
      fun hc => hmem (keys_shiftEvict_subset t hc)
    constructor
    · show lru ∉ keys (setKey t e (shiftEvict (cleanup s env)).cache)
      rw [keys_setKey_of_not_mem e htshift]
      intro hc
      rcases List.mem_append.1 hc with h1 | h1
      · rw [hshift] at h1
        exact (mem_keys_eraseKey.1 h1).2 rfl
      · exact hlru_ne_t (List.mem_singleton.1 h1)
    · show t ∈ keys (setKey t e (shiftEvict (cleanup s env)).cache)
      rw [keys_setKey_of_not_mem e htshift]
      exact List.mem_append.2 (Or.inr (List.mem_singleton.2 rfl))

/-- C3 (witness for the amended theorem): a two-operation sequence with
nonempty tenants respects the bound, and on a concrete full cache
(maxSize 1, tenant x cached) inserting tenant y evicts x first. -/
theorem cache_bound_c3_amended_witness :
    (runOps (mkCache 1 0)
      [CacheOp.set "x" ⟨[], []⟩ ⟨0, 0, 100⟩,
       CacheOp.set "y" ⟨[], []⟩ ⟨0, 0, 100⟩]).cache.length ≤ 1 ∧
      ("x" ∉ keys (cacheSet (⟨1, [("x", ⟨[], []⟩)], ["x"], [("x", 1024)], 0, 30000⟩ :
          CacheState) "y" ⟨[], []⟩ ⟨0, 0, 100⟩).cache ∧
        "y" ∈ keys (cacheSet (⟨1, [("x", ⟨[], []⟩)], ["x"], [("x", 1024)], 0, 30000⟩ :
          CacheState) "y" ⟨[], []⟩ ⟨0, 0, 100⟩).cache) :=
  ⟨cache_bound_c3_amended.1 1 0
      [CacheOp.set "x" ⟨[], []⟩ ⟨0, 0, 100⟩, CacheOp.set "y" ⟨[], []⟩ ⟨0, 0, 100⟩]
      (by decide) (by decide),
   cache_bound_c3_amended.2
      ⟨1, [("x", ⟨[], []⟩)], ["x"], [("x", 1024)], 0, 30000⟩ "y" ⟨[], []⟩
      ⟨0, 0, 100⟩ "x" []
      ⟨by decide, by decide, fun a => Iff.rfl, rfl, by decide, by decide,
       fun a => Iff.rfl⟩
      (by decide) (by decide) rfl⟩

/-- C5 (counterexample): the claim that `estimatedBytes` is recomputed
whenever an entry's rule set changes fails on the refresh path: caching
tenant t with an empty enforcer stores the estimate 1024; a second
`set(t, ...)` with a one-policy enforcer (whose estimate is 1124) replaces
the enforcer but leaves the stored estimate at 1024 — the update branch of
`set` never touches the memoryUsage map. -/
theorem memory_accounting_c5_counterexample :
    estimateEnforcerMemory ⟨[[some "admin", some "doc1", some "read", some "t1"]], []⟩ =
      1124 ∧
      lookupKey "t" (cacheSet (cacheSet (mkCache 50 0) "t" ⟨[], []⟩ ⟨0, 0, 100⟩) "t"
        ⟨[[some "admin", some "doc1", some "read", some "t1"]], []⟩
        ⟨0, 0, 100⟩).memoryUsage = some 1024 := by
  decide

/-- C5 (amended): the per-tenant memory estimate is computed (at the fixed
per-rule byte rates) only when a new tenant entry is inserted; `set` on an
already-cached tenant — the refresh path — replaces the enforcer but leaves
the stored estimate unchanged; and the memory-accounting map's keys always
coincide with the live cached tenants, so the aggregate reported by getStats
sums the stored per-tenant values over exactly the live entries. -/
theorem memory_accounting_c5_amended (s : CacheState) (t : String) (e : Enforcer)
    (env : Env) (h : Good s) (ht : t ≠ "") :
    (t ∈ keys (cleanup s env).cache →
      (cacheSet s t e env).memoryUsage = (cleanup s env).memoryUsage) ∧
      (t ∉ keys (cleanup s env).cache →
        lookupKey t (cacheSet s t e env).memoryUsage =
          some (estimateEnforcerMemory e)) ∧
      (∀ a, a ∈ keys (cacheSet s t e env).memoryUsage ↔
        a ∈ keys (cacheSet s t e env).cache) := by
  refine ⟨?_, ?_, (cacheSet_good t e env h ht).1.memIff⟩
  · intro hmem
    rw [cacheSet_eq, if_pos hmem]
  · intro hmem
    rw [cacheSet_eq, if_neg hmem]
    by_cases hcap : (cleanup s env).cache.length ≥ (cleanup s env).maxSize
    · rw [if_pos hcap]
      show lookupKey t (setKey t (estimateEnforcerMemory e)
        (shiftEvict (cleanup s env)).memoryUsage) = some (estimateEnforcerMemory e)
      exact lookupKey_setKey_self t _ _
    · rw [if_neg hcap]
      show lookupKey t (setKey t (estimateEnforcerMemory e)
        (cleanup s env).memoryUsage) = some (estimateEnforcerMemory e)
      exact lookupKey_setKey_self t _ _

/-- C5 (witness for the amended theorem): on a concrete one-tenant cache,
refreshing the cached tenant leaves the memory-accounting map unchanged, and
inserting a fresh tenant stores that tenant's computed estimate. -/
theorem memory_accounting_c5_amended_witness :
    (cacheSet (⟨50, [("t", ⟨[], []⟩)], ["t"], [("t", 1024)], 0, 30000⟩ : CacheState)
        "t" ⟨[[some "admin", some "doc1", some "read", some "t1"]], []⟩
        ⟨0, 0, 100⟩).memoryUsage =
      (cleanup (⟨50, [("t", ⟨[], []⟩)], ["t"], [("t", 1024)], 0, 30000⟩ : CacheState)
        ⟨0, 0, 100⟩).memoryUsage ∧
      lookupKey "u" (cacheSet
        (⟨50, [("t", ⟨[], []⟩)], ["t"], [("t", 1024)], 0, 30000⟩ : CacheState) "u"
        ⟨[[some "admin", some "doc1", some "read", some "t1"]], []⟩
        ⟨0, 0, 100⟩).memoryUsage =
        some (estimateEnforcerMemory
          ⟨[[some "admin", some "doc1", some "read", some "t1"]], []⟩) :=
  ⟨(memory_accounting_c5_amended
      ⟨50, [("t", ⟨[], []⟩)], ["t"], [("t", 1024)], 0, 30000⟩ "t"
      ⟨[[some "admin", some "doc1", some "read", some "t1"]], []⟩ ⟨0, 0, 100⟩
      ⟨by decide, by decide, fun a => Iff.rfl, rfl, by decide, by decide,
       fun a => Iff.rfl⟩
      (by decide)).1 (by decide),
   (memory_accounting_c5_amended
      ⟨50, [("t", ⟨[], []⟩)], ["t"], [("t", 1024)], 0, 30000⟩ "u"
      ⟨[[some "admin", some "doc1", some "read", some "t1"]], []⟩ ⟨0, 0, 100⟩
      ⟨by decide, by decide, fun a => Iff.rfl, rfl, by decide, by decide,
       fun a => Iff.rfl⟩
      (by decide)).2.1 (by decide)⟩

end Auth

